import Mathlib

/-!
# awsugfb backend: whitelist import and job routes

A shallow embedding of `backend/import-attendees.js` and of the CSV upload,
apply and export handlers of `backend/routes/jobs.js`, with the properties
the design document states about them.

JavaScript values that matter here are strings and `undefined`; a value read
from an object property is an `Option String` (`none` is `undefined`).
-/

set_option autoImplicit false

namespace Js

/-- Truthiness of a string-or-undefined value: `undefined` and `''` are falsy. -/
def truthy : Option String → Bool
  | none => false
  | some s => s != ""

/-- The `a || b` operator: `a` when it is truthy, otherwise `b`. -/
def or (a b : Option String) : Option String :=
  if truthy a then a else b

/-- The `a || ''` idiom used where a definite string is wanted. -/
def orEmpty (a : Option String) : String :=
  match or a (some "") with
  | some s => s
  | none => ""

/-- Template-literal conversion of a string-or-undefined value. -/
def toStr : Option String → String
  | none => "undefined"
  | some s => s

/-- Code points removed by `String.prototype.trim`: the ECMAScript WhiteSpace
and LineTerminator productions. -/
def isWhiteSpace (c : Char) : Bool :=
  [9, 10, 11, 12, 13, 32, 160, 5760, 8232, 8233, 8239, 8287, 12288, 65279].contains c.toNat
    || (8192 ≤ c.toNat && c.toNat ≤ 8202)

/-- Drop leading white space. -/
def trimStartChars (cs : List Char) : List Char :=
  cs.dropWhile isWhiteSpace

/-- Drop trailing white space. -/
def trimEndChars (cs : List Char) : List Char :=
  (cs.reverse.dropWhile isWhiteSpace).reverse

/-- The method `String.prototype.trim`. -/
def trim (s : String) : String :=
  ⟨trimEndChars (trimStartChars s.data)⟩

/-- The method `String.prototype.toLowerCase`. On a string of ASCII characters
it sends `A`..`Z` to `a`..`z` and keeps every other character, as the Unicode
default case conversion does there. On any other string the result is
`unicode s`: the parameter `unicode` stands for the runtime's Unicode case
conversion, whose tables are not part of the sources. -/
def toLowerCase (unicode : String → String) (s : String) : String :=
  if s.data.all (fun c => decide (c.toNat < 128)) then ⟨s.data.map Char.toLower⟩
  else unicode s

/-- A stand-in for the Unicode tables where a statement is evaluated on
concrete data: it lower-cases the ASCII letters of a string and keeps the
rest. -/
def asciiTable (s : String) : String :=
  ⟨s.data.map Char.toLower⟩

end Js

/-- A row object as produced by the CSV reader: header/value pairs, looked up
by header, the first pair for a header being the property's value. -/
abbrev Row := List (String × String)

/-- Property access `row[key]`. -/
def Row.get (row : Row) (key : String) : Option String :=
  List.lookup key row

/-- Assignment `o[header] = cell`: the new pair shadows an older one. -/
def Row.set (o : Row) (header cell : String) : Row :=
  (header, cell) :: o

/-- The option `mapHeaders: ({ header }) => header.trim()` of the whitelist
import. -/
def mapHeaders (header : String) : String :=
  Js.trim header

/-- The row object the CSV reader builds from one record: cell `i` is stored
under header `i`, or under `_i` when the record is longer than the header
line. -/
def writeRow (headers cells : List String) : Row :=
  cells.enum.foldl
    (fun o p =>
      match headers.get? p.1 with
      | some h => Row.set o h p.2
      | none => Row.set o ("_" ++ toString p.1) p.2)
    []

/-- A delimited file after tokenising: the header line and the records. -/
structure CsvFile where
  headers : List String
  records : List (List String)
deriving Repr

/-- The rows the whitelist import receives for a file: headers pass through
`mapHeaders` first. -/
def whitelistRows (f : CsvFile) : List Row :=
  f.records.map (writeRow (f.headers.map mapHeaders))

/-- A document handed to `Whitelist.insertMany`. -/
structure Attendee where
  email : Option String
  name : Option String
  bookingId : Option String
deriving DecidableEq, Repr

/-- The expression `row.Email || row.email || row['E-mail']`. -/
def rowEmail (row : Row) : Option String :=
  Js.or (Js.or (row.get "Email") (row.get "email")) (row.get "E-mail")

/-- The expression `row.Name || row.name`. -/
def rowName (row : Row) : Option String :=
  Js.or (row.get "Name") (row.get "name")

/-- The expression `row['Booking ID'] || row.bookingId || row['booking_id']`. -/
def rowBookingId (row : Row) : Option String :=
  Js.or (Js.or (row.get "Booking ID") (row.get "bookingId")) (row.get "booking_id")

/-- What the `data` handler accumulates: the `results` array and the rows it
warned about. -/
structure ImportAcc where
  results : List Attendee
  warned : List Row
deriving Repr

/-- The `data` handler of `importAttendees` (one call per row). -/
def onData (unicode : String → String) (acc : ImportAcc) (row : Row) : ImportAcc :=
  let email := rowEmail row
  let name := rowName row
  let bookingId := rowBookingId row
  if !Js.truthy bookingId then
    { acc with warned := acc.warned ++ [row] }
  else
    { acc with
      results := acc.results ++
        [{ email := (email.map (Js.toLowerCase unicode)).map Js.trim
           name := name.map Js.trim
           bookingId := bookingId.map Js.trim }] }

/-- The array the parsing promise resolves with: the handler run over every
row, starting from `results = []`. -/
def parseAttendees (unicode : String → String) (rows : List Row) : List Attendee :=
  (rows.foldl (onData unicode) { results := [], warned := [] }).results

/-- The record one row contributes, if any: the handler run on that row
alone. -/
def normalise (unicode : String → String) (row : Row) : Option Attendee :=
  (onData unicode { results := [], warned := [] } row).results.head?

/-- The accepted spellings of the identifier column, in the order listed. -/
def bookingIdAliases : List String := ["Booking ID", "bookingId", "booking_id"]

/-- The accepted spellings of the email column, in the order listed. -/
def emailAliases : List String := ["Email", "email", "E-mail"]

/-- The accepted spellings of the name column, in the order listed. -/
def nameAliases : List String := ["Name", "name"]

/-- A row has a non-empty value under a column. -/
def hasColumn (key : String) (row : Row) : Bool :=
  match row.get key with
  | some v => decide (v ≠ "")
  | none => false

/-- A row has a value for a field when one of the field's spellings carries a
non-empty string. -/
def hasField (aliases : List String) (row : Row) : Prop :=
  ∃ k ∈ aliases, ∃ v, row.get k = some v ∧ v ≠ ""

instance hasFieldDecidable (aliases : List String) (row : Row) :
    Decidable (hasField aliases row) :=
  decidable_of_iff (aliases.any (fun k => hasColumn k row) = true) (by
    simp only [List.any_eq_true, hasField, hasColumn]
    constructor
    · rintro ⟨k, hk, h⟩
      refine ⟨k, hk, ?_⟩
      cases hg : row.get k with
      | none => simp [hg] at h
      | some v => exact ⟨v, rfl, by simpa [hg] using h⟩
    · rintro ⟨k, hk, v, hv, hne⟩
      exact ⟨k, hk, by simp [hv, hne]⟩)

/-- The first non-empty value among a field's spellings, in the listed
order. -/
def firstNonEmpty (aliases : List String) (row : Row) : Option String :=
  aliases.findSome? (fun k =>
    match row.get k with
    | some v => if v = "" then none else some v
    | none => none)

/-- A string neither starts nor ends with white space. -/
def Js.trimmed (s : String) : Prop :=
  (∀ c, s.data.head? = some c → Js.isWhiteSpace c = false)
    ∧ (∀ c, s.data.getLast? = some c → Js.isWhiteSpace c = false)

/-- The row carries `v` under the spelling `a` and has no column under any
other spelling of the field. -/
def carriesAlone (aliases : List String) (a v : String) (row : Row) : Prop :=
  row.get a = some v ∧ ∀ k ∈ aliases, k ≠ a → row.get k = none

instance carriesAloneDecidable (aliases : List String) (a v : String) (row : Row) :
    Decidable (carriesAlone aliases a v row) := by
  unfold carriesAlone
  infer_instance

/-- The two rows of the design document's import scenario. -/
def scenarioRows : List Row :=
  [[("Email", "A@x.com"), ("Name", "Ann"), ("Booking ID", "B1")],
   [("Email", "b@x.com"), ("Name", "Bo")]]

/-- The three logical fields of a whitelist row. -/
inductive AttendeeField where
  | email
  | name
  | bookingId
deriving DecidableEq, Repr

/-- The accepted spellings of a field. -/
def AttendeeField.aliases : AttendeeField → List String
  | AttendeeField.email => emailAliases
  | AttendeeField.name => nameAliases
  | AttendeeField.bookingId => bookingIdAliases

/-- The value the handler reads for a field. -/
def AttendeeField.raw : AttendeeField → Row → Option String
  | AttendeeField.email => rowEmail
  | AttendeeField.name => rowName
  | AttendeeField.bookingId => rowBookingId

/-- The field of an emitted record. -/
def AttendeeField.canonical : AttendeeField → Attendee → Option String
  | AttendeeField.email => Attendee.email
  | AttendeeField.name => Attendee.name
  | AttendeeField.bookingId => Attendee.bookingId

/-- The clean-up the handler applies to a field's value. -/
def AttendeeField.clean (unicode : String → String) : AttendeeField → String → String
  | AttendeeField.email => fun s => Js.trim (Js.toLowerCase unicode s)
  | AttendeeField.name => Js.trim
  | AttendeeField.bookingId => Js.trim

/-- A row carrying its identifier under `bookingId` and its email under
`E-mail`. -/
def aliasRowA : Row := [("E-mail", "Bo@X.com "), ("bookingId", "B2")]

/-- The same data under `booking_id` and `Email`. -/
def aliasRowB : Row := [("booking_id", "B2"), ("Email", "Bo@X.com ")]

/-- A row with an identifier and a name but no email column. -/
def rowWithoutEmail : Row := [("Name", " Ann "), ("bookingId", " B7 ")]

/-! ## The whitelist store and `importAttendees` -/

/-- Modelled from the spec: the `Whitelist` collection (`models/Whitelist` is
not among the sources): the documents it holds, in insertion order. -/
abbrev WhitelistStore := List Attendee

/-- Modelled from the spec: `Whitelist.deleteMany` with the empty filter
removes every document. -/
def deleteMany (_store : WhitelistStore) : WhitelistStore := []

/-- Modelled from the spec: `Whitelist.insertMany(docs)` adds the documents
in order. -/
def insertMany (store : WhitelistStore) (docs : List Attendee) : WhitelistStore :=
  store ++ docs

/-- Which of the awaited operations of one run succeed. -/
structure ImportEnv where
  connectOk : Bool
  deleteOk : Bool
  streamOk : Bool
  insertOk : Bool
deriving DecidableEq, Repr

/-- A run in which connect, delete, parse and insert all succeed. -/
def ImportEnv.allOk : ImportEnv :=
  { connectOk := true, deleteOk := true, streamOk := true, insertOk := true }

/-- The function `importAttendees` as a store transformer: connect, delete
all, parse the rows, insert; the first rejected `await` jumps to `catch`, which
only logs. `streamOk` false is a failed read or parse: the rows are never
inserted and the store stays cleared. `unicode` is the runtime's case
conversion (see `Js.toLowerCase`). -/
def importAttendees (env : ImportEnv) (unicode : String → String) (rows : List Row)
    (store : WhitelistStore) : WhitelistStore :=
  if !env.connectOk then store
  else if !env.deleteOk then store
  else
    let cleared := deleteMany store
    if !env.streamOk then cleared
    else
      let attendees := parseAttendees unicode rows
      if !env.insertOk then cleared
      else insertMany cleared attendees

/-- A file whose identifier column is headed `booking id`. -/
def lowerCaseHeaderFile : CsvFile :=
  { headers := ["Email", "Name", "booking id"], records := [["a@x.com", "Ann", "B1"]] }

/-- A file whose identifier column is headed `BookingId`. -/
def camelCaseHeaderFile : CsvFile :=
  { headers := ["Email", "Name", "BookingId"], records := [["a@x.com", "Ann", "B1"]] }

/-- A file whose identifier column is headed `Booking ID` with blanks around
it. -/
def paddedHeaderFile : CsvFile :=
  { headers := ["Email", "Name", "  Booking ID "], records := [["a@x.com", "Ann", "B1"]] }

/-- A file whose only record has a blank identifier cell. -/
def blankIdentifierFile : CsvFile :=
  { headers := ["Email", "Name", "Booking ID"], records := [["a@x.com", "Ann", "   "]] }

/-! ## Job CSV upload -/

/-- A document pushed to `newJobs`. -/
structure Job where
  title : Option String
  company : Option String
  location : String
  experience : String
  skills : String
  description : String
deriving DecidableEq, Repr

/-- The `data` handler of the upload route. -/
def onJobData (newJobs : List Job) (row : Row) : List Job :=
  if Js.truthy (row.get "title") && Js.truthy (row.get "company") then
    newJobs ++
      [{ title := row.get "title"
         company := row.get "company"
         location := Js.orEmpty (row.get "location")
         experience := Js.orEmpty (row.get "experience")
         skills := Js.orEmpty (row.get "skills")
         description := Js.orEmpty (row.get "description") }]
  else newJobs

/-- The array `newJobs` once every row has been handled. -/
def collectJobs (rows : List Row) : List Job :=
  rows.foldl onJobData []

/-- The job a valid row stands for: title and company copied, the optional
columns taken from the row, empty when absent. -/
def jobOfRow (row : Row) : Job :=
  { title := row.get "title"
    company := row.get "company"
    location := (row.get "location").getD ""
    experience := (row.get "experience").getD ""
    skills := (row.get "skills").getD ""
    description := (row.get "description").getD "" }

/-- An observable action of the upload handler, with whether it succeeded. -/
inductive Effect where
  | insertJobs (jobs : List Job) (ok : Bool)
  | unlinkSync (path : String) (ok : Bool)
  | respond (status : Nat) (message : String) (ok : Bool)
deriving DecidableEq, Repr

/-- How the piped parser stream finishes. -/
inductive StreamEnd where
  /-- The event `end`. -/
  | ended
  /-- The event `error` on the parser stream, which the handler listens to. -/
  | parseError
  /-- An `error` on the file stream, which has no listener: no handler of the
  route runs. -/
  | readError
deriving DecidableEq, Repr

/-- The environment of one upload request. `unlinkOk k` and `respondOk k` say
whether the `k`-th call of `fs.unlinkSync` (on a file that still exists) and of
`res.json` succeed. -/
structure UploadEnv where
  file : Option String
  setupThrows : Bool
  rows : List Row
  stream : StreamEnd
  insertOk : Bool
  unlinkOk : Nat → Bool
  respondOk : Nat → Bool

/-- The `catch` block of the `end` handler; `fileExists` is false when the
`try` block already removed the file, `k` counts earlier `unlinkSync` calls and
`r` earlier responses. -/
def endCatch (env : UploadEnv) (path : String) (fileExists : Bool) (k r : Nat) :
    List Effect :=
  if fileExists && env.unlinkOk k then
    [Effect.unlinkSync path true,
     Effect.respond 500 "Failed to save jobs" (env.respondOk r)]
  else [Effect.unlinkSync path false]

/-- The `end` handler. -/
def onEnd (env : UploadEnv) (path : String) (newJobs : List Job) : List Effect :=
  let message := toString newJobs.length ++ " jobs uploaded successfully"
  if newJobs.length > 0 then
    if env.insertOk then
      if env.unlinkOk 0 then
        if env.respondOk 0 then
          [Effect.insertJobs newJobs true, Effect.unlinkSync path true,
           Effect.respond 200 message true]
        else
          [Effect.insertJobs newJobs true, Effect.unlinkSync path true,
           Effect.respond 200 message false] ++ endCatch env path false 1 1
      else
        [Effect.insertJobs newJobs true, Effect.unlinkSync path false]
          ++ endCatch env path true 1 0
    else
      Effect.insertJobs newJobs false :: endCatch env path true 0 0
  else
    if env.unlinkOk 0 then
      if env.respondOk 0 then
        [Effect.unlinkSync path true, Effect.respond 200 message true]
      else
        [Effect.unlinkSync path true, Effect.respond 200 message false]
          ++ endCatch env path false 1 1
    else
      Effect.unlinkSync path false :: endCatch env path true 1 0

/-- The `error` handler. -/
def onError (env : UploadEnv) (path : String) : List Effect :=
  if env.unlinkOk 0 then
    [Effect.unlinkSync path true,
     Effect.respond 500 "CSV parsing failed" (env.respondOk 0)]
  else [Effect.unlinkSync path false]

/-- The route `POST /upload-csv`: the actions it performs, in order. -/
def uploadCsv (env : UploadEnv) : List Effect :=
  match env.file with
  | none =>
    if env.respondOk 0 then [Effect.respond 400 "No file uploaded" true]
    else
      [Effect.respond 400 "No file uploaded" false,
       Effect.respond 500 "CSV upload failed" (env.respondOk 1)]
  | some path =>
    if env.setupThrows then
      [Effect.respond 500 "CSV upload failed" (env.respondOk 0)]
    else
      match env.stream with
      | StreamEnd.ended => onEnd env path (collectJobs env.rows)
      | StreamEnd.parseError => onError env path
      | StreamEnd.readError => []

/-- Some successful `unlinkSync` of `path` happens before every response of
the trace; `deleted` says whether one has happened already. -/
def unlinkBeforeRespond (path : String) : Bool → List Effect → Bool
  | _, [] => true
  | deleted, Effect.unlinkSync p ok :: rest =>
    unlinkBeforeRespond path (deleted || (decide (p = path) && ok)) rest
  | deleted, Effect.respond _ _ _ :: rest =>
    deleted && unlinkBeforeRespond path deleted rest
  | deleted, Effect.insertJobs _ _ :: rest => unlinkBeforeRespond path deleted rest

/-- A row has both required columns of the job upload. -/
def validJobRow (row : Row) : Bool :=
  hasColumn "title" row && hasColumn "company" row

/-- Three uploaded rows: a full one, one without company, one with only the
required columns. -/
def sampleJobRows : List Row :=
  [[("title", "Dev"), ("company", "Acme"), ("location", "Pune"), ("skills", "js")],
   [("title", "Ops"), ("company", "")],
   [("title", "QA"), ("company", "Init")]]

/-- An upload of `sampleJobRows` in which every step succeeds. -/
def sampleUploadOk : UploadEnv :=
  { file := some "uploads/resumes/ab12", setupThrows := false, rows := sampleJobRows,
    stream := StreamEnd.ended, insertOk := true,
    unlinkOk := fun _ => true, respondOk := fun _ => true }

/-- The same upload with the insert failing. -/
def sampleUploadInsertFails : UploadEnv :=
  { sampleUploadOk with insertOk := false }

/-- The same upload with the parser stream failing. -/
def sampleUploadParseFails : UploadEnv :=
  { sampleUploadOk with stream := StreamEnd.parseError }

/-- An upload in which building the stream throws synchronously, which the
outer `catch` answers. -/
def sampleUploadSetupThrows : UploadEnv :=
  { sampleUploadOk with setupThrows := true }

/-- An upload whose temporary file cannot be read: the file stream, not the
parser stream, emits `error`. -/
def sampleUploadReadFails : UploadEnv :=
  { sampleUploadOk with stream := StreamEnd.readError }

/-! ## Job applications -/

/-- A `JobApplication` document. -/
structure JobApplication where
  _id : String
  createdAt : Nat
  userEmail : Option String
  jobId : Option String
  jobTitle : Option String
  company : Option String
  name : Option String
  phone : Option String
  resumeFile : Option String
  resumeS3Url : Option String
  coverLetter : Option String
deriving DecidableEq, Repr

/-- The uploaded file object `req.file` of the apply route. -/
structure UploadedFile where
  key : Option String
  filename : Option String
  location : Option String
deriving DecidableEq, Repr

/-- The parts of an apply request the handler reads. -/
structure ApplyReq where
  userEmail : Option String
  jobId : Option String
  jobTitle : Option String
  company : Option String
  name : Option String
  phone : Option String
  coverLetter : Option String
  file : Option UploadedFile
deriving DecidableEq, Repr

/-- An error thrown by a store operation. -/
structure DbError where
  code : Option Nat
  message : String
deriving DecidableEq, Repr

/-- A JSON response: status and `message`. -/
structure Response where
  status : Nat
  message : String
deriving DecidableEq, Repr

/-- The application collection. -/
abbrev AppStore := List JobApplication

/-- A document is the application of this user for this job. -/
def isPair (userEmail jobId : Option String) (a : JobApplication) : Bool :=
  decide (a.userEmail = userEmail) && decide (a.jobId = jobId)

/-- The query `JobApplication.findOne({ userEmail, jobId })`. -/
def findOne (store : AppStore) (userEmail jobId : Option String) : Option JobApplication :=
  store.find? (isPair userEmail jobId)

/-- Modelled from the spec: `application.save()` against the collection
(`models/JobApplication` is not among the sources) with its uniqueness
constraint on (userEmail, jobId): a second document for a pair is refused with
error code 11000. `fault` is an unrelated failure of the call. -/
def save (fault : Option DbError) (store : AppStore) (a : JobApplication) :
    Except DbError AppStore :=
  match fault with
  | some e => Except.error e
  | none =>
    if store.any (isPair a.userEmail a.jobId) then
      Except.error { code := some 11000, message := "E11000 duplicate key error" }
    else Except.ok (store ++ [a])

/-- The environment of one apply request: what the pre-check query returned
(it is awaited before the save, so under concurrent requests it may predate
the store the save meets), a failure of the save unrelated to uniqueness, and
the identifier and time given to the new document. -/
structure ApplyEnv where
  precheck : Except DbError (Option JobApplication)
  saveFault : Option DbError
  newId : String
  now : Nat
deriving Repr

/-- The expression `new JobApplication({...})` of the apply route. -/
def newApplication (env : ApplyEnv) (req : ApplyReq) : JobApplication :=
  { _id := env.newId
    createdAt := env.now
    userEmail := req.userEmail
    jobId := req.jobId
    jobTitle := req.jobTitle
    company := req.company
    name := req.name
    phone := req.phone
    resumeFile := Js.or (req.file.bind UploadedFile.key) (req.file.bind UploadedFile.filename)
    resumeS3Url := req.file.bind UploadedFile.location
    coverLetter := req.coverLetter }

/-- The message of the duplicate-application rejection. -/
def alreadyApplied : Response :=
  { status := 400, message := "You have already applied for this job" }

/-- The `catch` block of the apply route. -/
def applyCatch (e : DbError) : Response :=
  if e.code = some 11000 then alreadyApplied
  else { status := 500, message := "Failed to submit application" }

/-- The route `POST /apply`: the response and the store afterwards. -/
def apply (env : ApplyEnv) (store : AppStore) (req : ApplyReq) : Response × AppStore :=
  match env.precheck with
  | Except.error e => (applyCatch e, store)
  | Except.ok (some _) => (alreadyApplied, store)
  | Except.ok none =>
    match save env.saveFault store (newApplication env req) with
    | Except.ok store2 =>
      ({ status := 201, message := "Application submitted successfully" }, store2)
    | Except.error e => (applyCatch e, store)

/-- An apply request handled with no other request in flight: the pre-check
reads the store the save will meet, and nothing else fails. -/
def applyAlone (newId : String) (now : Nat) (store : AppStore) (req : ApplyReq) :
    Response × AppStore :=
  apply { precheck := Except.ok (findOne store req.userEmail req.jobId),
          saveFault := none, newId := newId, now := now } store req

/-- A sequence of apply attempts: the store after the last one. -/
def applyAll (store : AppStore) (attempts : List (ApplyEnv × ApplyReq)) : AppStore :=
  attempts.foldl (fun st p => (apply p.1 st p.2).2) store

/-- The store holds at most one application for the pair. -/
def atMostOne (userEmail jobId : Option String) (store : AppStore) : Prop :=
  store.countP (isPair userEmail jobId) ≤ 1

/-- The apply request of the back-to-back scenario. -/
def scenarioReq : ApplyReq :=
  { userEmail := some "u@x.com", jobId := some "j1", jobTitle := some "Engineer",
    company := some "Acme", name := some "Uma", phone := some "555",
    coverLetter := none, file := none }

/-- The store after the first apply of the scenario. -/
def scenarioStore : AppStore :=
  (applyAlone "id1" 1 [] scenarioReq).2

/-- A second request whose pre-check ran before the first one saved: it saw no
application. -/
def staleEnv : ApplyEnv :=
  { precheck := Except.ok none, saveFault := none, newId := "id2", now := 2 }

/-! ## Applications export -/

/-- The constant `csvHeader` of the applications export. -/
def csvHeader : String :=
  "ID,Job Title,Applicant Email,Name,Phone,Applied Date,Resume File\n"

/-- One line of the applications export (the template literal of the `map`
callback). `localeDate` stands for `new Date(t).toLocaleDateString()`, whose
output depends on the host locale. -/
def csvRow (localeDate : Nat → String) (app : JobApplication) : String :=
  app._id ++ ",\"" ++ Js.orEmpty app.jobTitle ++ "\"," ++ Js.toStr app.userEmail ++ ",\""
    ++ Js.orEmpty app.name ++ "\"," ++ Js.orEmpty app.phone ++ ","
    ++ localeDate app.createdAt ++ "," ++ Js.orEmpty app.resumeFile

/-- The body sent by the applications export: `csvHeader + csvRows`. -/
def exportApplications (localeDate : Nat → String) (apps : List JobApplication) : String :=
  csvHeader ++ String.intercalate "\n" (apps.map (csvRow localeDate))

/-- A quote-aware field splitter: a comma outside double quotes ends a field,
a double quote opens or closes a quoted stretch and is not part of the field.
`cur` holds the current field reversed. -/
def splitQuotedAux : Bool → List Char → List Char → List (List Char)
  | _, cur, [] => [cur.reverse]
  | inQuotes, cur, c :: rest =>
    if c = '"' then splitQuotedAux (!inQuotes) cur rest
    else if c = ',' && !inQuotes then cur.reverse :: splitQuotedAux false [] rest
    else splitQuotedAux inQuotes (c :: cur) rest

/-- The fields of one CSV line under quote-aware splitting. -/
def splitQuoted (line : String) : List String :=
  (splitQuotedAux false [] line.data).map String.mk

/-- A quote-aware reader of a whole CSV text: as `splitQuotedAux` within a
record, and a line feed outside double quotes ends the record. `cur` holds the
current field reversed, `fields` the earlier fields of the record reversed. -/
def parseCsvAux : Bool → List Char → List (List Char) → List Char → List (List (List Char))
  | _, cur, fields, [] => [(cur.reverse :: fields).reverse]
  | inQuotes, cur, fields, c :: rest =>
    if c = '"' then parseCsvAux (!inQuotes) cur fields rest
    else if c = ',' && !inQuotes then parseCsvAux false [] (cur.reverse :: fields) rest
    else if c = '\n' && !inQuotes then
      (cur.reverse :: fields).reverse :: parseCsvAux false [] [] rest
    else parseCsvAux inQuotes (c :: cur) fields rest

/-- The records of a CSV text, each a list of fields. -/
def parseCsv (text : String) : List (List String) :=
  (parseCsvAux false [] [] text.data).map (List.map String.mk)

/-- Characters free of comma and double quote. -/
def delimiterFreeChars (xs : List Char) : Prop :=
  ∀ c ∈ xs, c ≠ ',' ∧ c ≠ '"'

/-- Characters free of comma, double quote and line breaks. -/
def plainChars (xs : List Char) : Prop :=
  ∀ c ∈ xs, c ≠ ',' ∧ c ≠ '"' ∧ c ≠ '\n' ∧ c ≠ '\r'

/-- A string free of comma and double quote. -/
def delimiterFree (s : String) : Prop :=
  delimiterFreeChars s.data

/-- A string free of comma, double quote and line breaks: a value that can
stand in a CSV text without quotes. -/
def plainField (s : String) : Prop :=
  plainChars s.data

/-- A string free of double quotes. -/
def quoteFree (s : String) : Prop :=
  ∀ c ∈ s.data, c ≠ '"'

/-- The header line without its line break. -/
def csvHeaderLine : String :=
  "ID,Job Title,Applicant Email,Name,Phone,Applied Date,Resume File"

/-- The seven column names of the header line. -/
def csvHeaderFields : List String :=
  ["ID", "Job Title", "Applicant Email", "Name", "Phone", "Applied Date", "Resume File"]

/-- The seven values a row of the export is written from, in column order. -/
def exportFields (localeDate : Nat → String) (app : JobApplication) : List String :=
  [app._id, Js.orEmpty app.jobTitle, Js.toStr app.userEmail, Js.orEmpty app.name,
   Js.orEmpty app.phone, localeDate app.createdAt, Js.orEmpty app.resumeFile]

/-- What a row of the export holds after the quoted job title and its
comma. -/
def rowTail (localeDate : Nat → String) (app : JobApplication) : String :=
  Js.toStr app.userEmail ++ ",\"" ++ Js.orEmpty app.name ++ "\"," ++ Js.orEmpty app.phone
    ++ "," ++ localeDate app.createdAt ++ "," ++ Js.orEmpty app.resumeFile

/-- An application the export renders as one seven-field record: no value
contains a double quote, and the values written without quotes contain no
comma and no line break. -/
def exportable (localeDate : Nat → String) (app : JobApplication) : Prop :=
  plainField app._id ∧ quoteFree (Js.orEmpty app.jobTitle)
    ∧ plainField (Js.toStr app.userEmail) ∧ quoteFree (Js.orEmpty app.name)
    ∧ plainField (Js.orEmpty app.phone) ∧ plainField (localeDate app.createdAt)
    ∧ plainField (Js.orEmpty app.resumeFile)

/-- A fixed rendering of dates for the examples. -/
def sampleLocaleDate : Nat → String := fun _ => "11/4/2026"

/-- An application whose job title contains a comma. -/
def commaTitleApp : JobApplication :=
  { _id := "65a1", createdAt := 0, userEmail := some "u@x.com", jobId := some "j1",
    jobTitle := some "Engineer, Senior", company := some "Acme", name := some "Uma",
    phone := some "555", resumeFile := some "cv.pdf", resumeS3Url := none,
    coverLetter := none }

/-- The same application with a comma in the phone number. -/
def commaPhoneApp : JobApplication :=
  { commaTitleApp with phone := some "555,1234" }

/-- An application whose job title contains a comma and double quotes. -/
def quotedTitleApp : JobApplication :=
  { commaTitleApp with jobTitle := some "Lead \"Dev\", Ops" }

/-- The application of `commaTitleApp` with a line feed in the phone number. -/
def lineFeedPhoneApp : JobApplication :=
  { commaTitleApp with phone := some "555\n1234" }

/-- A second application, with a comma and a line feed inside its quoted
name. -/
def secondApp : JobApplication :=
  { _id := "65a2", createdAt := 1, userEmail := some "v@x.com", jobId := some "j1",
    jobTitle := some "Engineer, Senior", company := some "Acme",
    name := some "Vi,\nVo", phone := none, resumeFile := none, resumeS3Url := none,
    coverLetter := none }

/-! ## Basic facts about the JavaScript operators -/

theorem Js.truthy_iff (a : Option String) :
    Js.truthy a = true ↔ ∃ v, a = some v ∧ v ≠ "" := by
  cases a with
  | none => simp [Js.truthy]
  | some s => simp [Js.truthy]

theorem Js.truthy_or (a b : Option String) :
    Js.truthy (Js.or a b) = (Js.truthy a || Js.truthy b) := by
  unfold Js.or
  cases h : Js.truthy a <;> simp [h]

theorem Js.or_of_truthy (a b : Option String) (h : Js.truthy a = true) :
    Js.or a b = a := by
  simp [Js.or, h]

theorem Js.or_of_falsy (a b : Option String) (h : Js.truthy a = false) :
    Js.or a b = b := by
  simp [Js.or, h]

theorem Js.orEmpty_eq_getD (a : Option String) : Js.orEmpty a = a.getD "" := by
  cases a with
  | none => simp [Js.orEmpty, Js.or, Js.truthy]
  | some s =>
    by_cases h : s = ""
    · simp [Js.orEmpty, Js.or, Js.truthy, h]
    · simp [Js.orEmpty, Js.or, Js.truthy, h]

theorem hasColumn_eq_truthy (key : String) (row : Row) :
    hasColumn key row = Js.truthy (row.get key) := by
  unfold hasColumn
  cases row.get key with
  | none => simp [Js.truthy]
  | some s => by_cases h : s = "" <;> simp [Js.truthy, h]

/-! ## The whitelist normaliser -/

theorem normalise_eq (unicode : String → String) (row : Row) :
    normalise unicode row =
      if Js.truthy (rowBookingId row) then
        some { email := ((rowEmail row).map (Js.toLowerCase unicode)).map Js.trim
               name := (rowName row).map Js.trim
               bookingId := (rowBookingId row).map Js.trim }
      else none := by
  unfold normalise onData
  cases h : Js.truthy (rowBookingId row) <;> simp [h]

theorem onData_results (unicode : String → String) (acc : ImportAcc) (row : Row) :
    (onData unicode acc row).results = acc.results ++ (normalise unicode row).toList := by
  rw [normalise_eq]
  unfold onData
  cases h : Js.truthy (rowBookingId row) <;> simp [h]

theorem foldl_onData_results (unicode : String → String) (rows : List Row) (acc : ImportAcc) :
    (rows.foldl (onData unicode) acc).results
      = acc.results ++ rows.filterMap (normalise unicode) := by
  induction rows generalizing acc with
  | nil => simp
  | cons row rest ih =>
    rw [List.foldl_cons, ih, onData_results]
    cases h : normalise unicode row <;> simp [List.filterMap_cons, h]

theorem parseAttendees_eq_filterMap (unicode : String → String) (rows : List Row) :
    parseAttendees unicode rows = rows.filterMap (normalise unicode) := by
  simp [parseAttendees, foldl_onData_results]

theorem truthy_rowBookingId_iff (row : Row) :
    Js.truthy (rowBookingId row) = true ↔ hasField bookingIdAliases row := by
  simp only [rowBookingId, Js.truthy_or, Bool.or_eq_true, Js.truthy_iff, hasField,
    bookingIdAliases, List.mem_cons, List.mem_singleton, List.not_mem_nil, or_false]
  constructor
  · rintro ((h | h) | h)
    · exact ⟨_, Or.inl rfl, h⟩
    · exact ⟨_, Or.inr (Or.inl rfl), h⟩
    · exact ⟨_, Or.inr (Or.inr rfl), h⟩
  · rintro ⟨k, rfl | rfl | rfl, h⟩
    · exact Or.inl (Or.inl h)
    · exact Or.inl (Or.inr h)
    · exact Or.inr h

theorem normalise_isSome_iff (unicode : String → String) (row : Row) :
    (∃ a, normalise unicode row = some a) ↔ hasField bookingIdAliases row := by
  rw [← truthy_rowBookingId_iff, normalise_eq]
  cases h : Js.truthy (rowBookingId row) <;> simp [h]

/-- C1: the `data` handler of `importAttendees` emits a record for a row exactly
when the row has a non-empty identifier under `Booking ID`, `bookingId` or
`booking_id`; rows without one are left out, the kept rows stay in input
order, the number of records handed to the bulk insert is the number of rows
with an identifier, and the two-row scenario yields the single record for
`B1`. -/
theorem whitelist_keeps_exactly_rows_with_identifier (unicode : String → String)
    (rows : List Row) :
    parseAttendees unicode rows = rows.filterMap (normalise unicode)
    ∧ parseAttendees unicode rows
        = (rows.filter (fun r => decide (hasField bookingIdAliases r))).filterMap
            (normalise unicode)
    ∧ (∀ row, (∃ a, normalise unicode row = some a) ↔ hasField bookingIdAliases row)
    ∧ (∀ row, ¬ hasField bookingIdAliases row → normalise unicode row = none)
    ∧ (parseAttendees unicode rows).length
        = (rows.filter (fun r => decide (hasField bookingIdAliases r))).length
    ∧ parseAttendees unicode scenarioRows
        = [{ email := some "a@x.com", name := some "Ann", bookingId := some "B1" }] := by
  have hnone : ∀ row, ¬ hasField bookingIdAliases row → normalise unicode row = none := by
    intro row h
    cases hn : normalise unicode row with
    | none => rfl
    | some a => exact absurd ((normalise_isSome_iff unicode row).mp ⟨a, hn⟩) h
  have hfilter : rows.filterMap (normalise unicode)
      = (rows.filter (fun r => decide (hasField bookingIdAliases r))).filterMap
          (normalise unicode) := by
    induction rows with
    | nil => rfl
    | cons row rest ih =>
      by_cases h : hasField bookingIdAliases row
      · obtain ⟨a, ha⟩ := (normalise_isSome_iff unicode row).mpr h
        simp [List.filter_cons, h, List.filterMap_cons, ha, ih]
      · simp [List.filter_cons, h, List.filterMap_cons, hnone row h, ih]
  have hlen : (rows.filterMap (normalise unicode)).length
      = (rows.filter (fun r => decide (hasField bookingIdAliases r))).length := by
    clear hfilter
    induction rows with
    | nil => rfl
    | cons row rest ih =>
      by_cases h : hasField bookingIdAliases row
      · obtain ⟨a, ha⟩ := (normalise_isSome_iff unicode row).mpr h
        simp [List.filter_cons, h, List.filterMap_cons, ha, ih]
      · simp [List.filter_cons, h, List.filterMap_cons, hnone row h, ih]
  refine ⟨parseAttendees_eq_filterMap unicode rows, ?_, normalise_isSome_iff unicode, hnone, ?_, rfl⟩
  · rw [parseAttendees_eq_filterMap]; exact hfilter
  · rw [parseAttendees_eq_filterMap]; exact hlen

/-! ## Trimming and lower-casing -/

theorem Js.toLower_not_isUpper (c : Char) : c.toLower.isUpper = false := by
  unfold Char.toLower
  simp only []
  split
  · rename_i h
    obtain ⟨h1, h2⟩ := h
    generalize c.toNat = n at *
    interval_cases n <;> decide
  · rename_i h
    simp only [Char.isUpper, Char.toNat, ge_iff_le] at *
    rw [Bool.and_eq_false_iff]
    simp only [decide_eq_false_iff_not]
    by_contra hc
    push_neg at hc
    exact h ⟨hc.1, hc.2⟩

theorem Js.trimEndChars_eq (cs : List Char) :
    Js.trimEndChars cs = cs.rdropWhile Js.isWhiteSpace := rfl

theorem Js.mem_trim (s : String) (c : Char) (h : c ∈ (Js.trim s).data) : c ∈ s.data := by
  have h1 : c ∈ Js.trimStartChars s.data := by
    have hp := List.rdropWhile_prefix Js.isWhiteSpace (l := Js.trimStartChars s.data)
    exact hp.subset h
  exact List.dropWhile_subset _ h1

theorem Js.trim_trimmed (s : String) : Js.trimmed (Js.trim s) := by
  constructor
  · intro c hc
    have hp := List.rdropWhile_prefix Js.isWhiteSpace (l := Js.trimStartChars s.data)
    obtain ⟨t, ht⟩ := hp
    have hhead : (Js.trimStartChars s.data).head? = some c := by
      rw [← ht]
      change (List.rdropWhile Js.isWhiteSpace (Js.trimStartChars s.data)).head? = some c at hc
      cases hr : List.rdropWhile Js.isWhiteSpace (Js.trimStartChars s.data) with
      | nil => rw [hr] at hc; simp at hc
      | cons x xs => rw [hr] at hc; simpa using hc
    have hn := List.head?_dropWhile_not Js.isWhiteSpace s.data
    unfold Js.trimStartChars at hhead
    rw [hhead] at hn
    exact hn
  · intro c hc
    change (List.rdropWhile Js.isWhiteSpace (Js.trimStartChars s.data)).getLast? = some c at hc
    have hne : List.rdropWhile Js.isWhiteSpace (Js.trimStartChars s.data) ≠ [] := by
      intro h0; rw [h0] at hc; simp at hc
    have hl := List.rdropWhile_last_not Js.isWhiteSpace _ hne
    rw [List.getLast?_eq_getLast _ hne] at hc
    have hc2 : (List.rdropWhile Js.isWhiteSpace (Js.trimStartChars s.data)).getLast hne = c := by
      simpa using hc
    rw [hc2] at hl
    simpa using hl

theorem Js.toLowerCase_ascii (unicode : String → String) (s : String)
    (h : ∀ c ∈ s.data, c.toNat < 128) :
    Js.toLowerCase unicode s = ⟨s.data.map Char.toLower⟩ := by
  unfold Js.toLowerCase
  rw [if_pos]
  rw [List.all_eq_true]
  intro c hc
  simpa using h c hc

theorem Js.toLowerCase_ascii_no_upper (unicode : String → String) (s : String)
    (h : ∀ c ∈ s.data, c.toNat < 128) (c : Char)
    (hc : c ∈ (Js.toLowerCase unicode s).data) : c.isUpper = false := by
  rw [Js.toLowerCase_ascii unicode s h] at hc
  simp only [List.mem_map] at hc
  obtain ⟨d, _, rfl⟩ := hc
  exact Js.toLower_not_isUpper d

theorem Js.toLowerCase_asciiTable (s : String) :
    Js.toLowerCase Js.asciiTable s = ⟨s.data.map Char.toLower⟩ := by
  unfold Js.toLowerCase Js.asciiTable
  split <;> rfl

theorem Js.toLowerCase_empty (unicode : String → String) :
    Js.toLowerCase unicode "" = "" := by
  rfl

theorem Js.trim_empty : Js.trim "" = "" := by
  rfl

/-! ## Alias chains against the listed order -/

theorem rowEmail_eq (row : Row) :
    rowEmail row =
      match firstNonEmpty emailAliases row with
      | some v => some v
      | none => row.get "E-mail" := by
  unfold rowEmail firstNonEmpty emailAliases
  simp only [List.findSome?]
  generalize row.get "Email" = a
  generalize row.get "email" = b
  generalize row.get "E-mail" = c
  rcases a with _ | a <;> rcases b with _ | b <;> rcases c with _ | c
  all_goals (try by_cases ha : a = "") <;> (try by_cases hb : b = "") <;>
    (try by_cases hc : c = "") <;> simp_all [Js.or, Js.truthy]

theorem rowName_eq (row : Row) :
    rowName row =
      match firstNonEmpty nameAliases row with
      | some v => some v
      | none => row.get "name" := by
  unfold rowName firstNonEmpty nameAliases
  simp only [List.findSome?]
  generalize row.get "Name" = a
  generalize row.get "name" = b
  rcases a with _ | a <;> rcases b with _ | b
  all_goals (try by_cases ha : a = "") <;> (try by_cases hb : b = "") <;>
    simp_all [Js.or, Js.truthy]

theorem rowBookingId_eq (row : Row) :
    rowBookingId row =
      match firstNonEmpty bookingIdAliases row with
      | some v => some v
      | none => row.get "booking_id" := by
  unfold rowBookingId firstNonEmpty bookingIdAliases
  simp only [List.findSome?]
  generalize row.get "Booking ID" = a
  generalize row.get "bookingId" = b
  generalize row.get "booking_id" = c
  rcases a with _ | a <;> rcases b with _ | b <;> rcases c with _ | c
  all_goals (try by_cases ha : a = "") <;> (try by_cases hb : b = "") <;>
    (try by_cases hc : c = "") <;> simp_all [Js.or, Js.truthy]

theorem firstNonEmpty_eq_none_iff (aliases : List String) (row : Row) :
    firstNonEmpty aliases row = none ↔ ¬ hasField aliases row := by
  unfold firstNonEmpty hasField
  rw [List.findSome?_eq_none_iff]
  constructor
  · rintro h ⟨k, hk, v, hv, hne⟩
    have := h k hk
    simp [hv, hne] at this
  · intro h k hk
    cases hg : row.get k with
    | none => rfl
    | some v =>
      by_cases hv : v = ""
      · simp [hv]
      · exact absurd ⟨k, hk, v, hg, hv⟩ h

theorem firstNonEmpty_ne_empty (aliases : List String) (row : Row) (v : String)
    (h : firstNonEmpty aliases row = some v) : v ≠ "" := by
  unfold firstNonEmpty at h
  obtain ⟨k, _, hk⟩ := List.exists_of_findSome?_eq_some h
  cases hg : row.get k with
  | none => simp [hg] at hk
  | some w =>
    by_cases hw : w = ""
    · simp [hg, hw] at hk
    · simp [hg, hw] at hk
      rw [← hk]; exact hw

theorem normalise_email (unicode : String → String) (row : Row) (a : Attendee)
    (h : normalise unicode row = some a) :
    a.email = (rowEmail row).map (fun e => Js.trim (Js.toLowerCase unicode e))
    ∧ a.name = (rowName row).map Js.trim
    ∧ a.bookingId = (rowBookingId row).map Js.trim := by
  rw [normalise_eq] at h
  split at h
  · cases h
    simp [Option.map_map, Function.comp_def]
  · exact Option.noConfusion h

theorem firstNonEmpty_none_get (aliases : List String) (row : Row) (k v : String)
    (hk : k ∈ aliases) (h : firstNonEmpty aliases row = none) (hv : row.get k = some v) :
    v = "" := by
  by_contra hne
  exact (firstNonEmpty_eq_none_iff aliases row).mp h ⟨k, hk, v, hv, hne⟩

/-- C2 (counterexample): a row with an identifier whose `name` cell is empty
is emitted with the empty string as its name, not with the name absent; the
same holds for an empty `E-mail` cell. -/
theorem empty_last_alias_cell_not_absent :
    normalise Js.asciiTable [("name", ""), ("Booking ID", "B1")]
      = some { email := none, name := some "", bookingId := some "B1" }
    ∧ normalise Js.asciiTable [("E-mail", ""), ("Booking ID", "B1")]
      = some { email := some "", name := none, bookingId := some "B1" } := by
  decide

/-- C2 (amended): for every row the normaliser keeps (a row with an
identifier), the emitted email is the row's email (first non-empty spelling)
lower-cased and then trimmed: it has no white space at either end and only
characters of the lower-cased value, hence no upper-case letter, whatever is
meant by one, that `toLowerCase` leaves none of, and no `A`..`Z` when the value
is ASCII; the emitted name and bookingId are the row's name and identifier
trimmed; and a row with no non-empty email (or name) is still emitted, the
field absent when the row has no `E-mail` (or `name`) column and the empty
string when that column is there but empty. -/
theorem whitelist_fields_trimmed_lowercased (unicode : String → String) (row : Row)
    (h : hasField bookingIdAliases row) :
    ∃ a, normalise unicode row = some a
      ∧ (∀ e, firstNonEmpty emailAliases row = some e →
          a.email = some (Js.trim (Js.toLowerCase unicode e)))
      ∧ (∀ e, a.email = some e → Js.trimmed e)
      ∧ (∀ e, a.email = some e →
          ∃ raw, rowEmail row = some raw ∧ ∀ c ∈ e.data, c ∈ (Js.toLowerCase unicode raw).data)
      ∧ (∀ upper : Char → Prop, (∀ s, ∀ c ∈ (Js.toLowerCase unicode s).data, ¬ upper c) →
          ∀ e, a.email = some e → ∀ c ∈ e.data, ¬ upper c)
      ∧ (∀ raw, rowEmail row = some raw → (∀ c ∈ raw.data, c.toNat < 128) →
          ∀ e, a.email = some e → ∀ c ∈ e.data, c.isUpper = false)
      ∧ (∀ n, firstNonEmpty nameAliases row = some n → a.name = some (Js.trim n))
      ∧ (∃ b, firstNonEmpty bookingIdAliases row = some b ∧ a.bookingId = some (Js.trim b))
      ∧ (firstNonEmpty emailAliases row = none →
          (row.get "E-mail" = none → a.email = none)
          ∧ (∀ v, row.get "E-mail" = some v → a.email = some ""))
      ∧ (firstNonEmpty nameAliases row = none →
          (row.get "name" = none → a.name = none)
          ∧ (∀ v, row.get "name" = some v → a.name = some "")) := by
  obtain ⟨a, ha⟩ := (normalise_isSome_iff unicode row).mpr h
  obtain ⟨hemail, hname, hid⟩ := normalise_email unicode row a ha
  have hsub : ∀ e, a.email = some e →
      ∃ raw, rowEmail row = some raw ∧ ∀ c ∈ e.data, c ∈ (Js.toLowerCase unicode raw).data := by
    intro e he
    rw [hemail] at he
    cases hr : rowEmail row with
    | none => rw [hr] at he; exact Option.noConfusion he
    | some raw =>
      rw [hr] at he
      simp only [Option.map_some', Option.some.injEq] at he
      subst he
      exact ⟨raw, rfl, fun c hc => Js.mem_trim _ c hc⟩
  refine ⟨a, ha, ?_, ?_, hsub, ?_, ?_, ?_, ?_, ?_, ?_⟩
  · intro e he
    rw [hemail, rowEmail_eq, he]
    rfl
  · intro e he
    rw [hemail] at he
    cases hr : rowEmail row with
    | none => rw [hr] at he; exact Option.noConfusion he
    | some raw =>
      rw [hr] at he
      simp only [Option.map_some', Option.some.injEq] at he
      subst he
      exact Js.trim_trimmed _
  · intro upper hupper e he c hc
    obtain ⟨raw, _, hraw⟩ := hsub e he
    exact hupper raw c (hraw c hc)
  · intro raw hraw hascii e he c hc
    obtain ⟨raw2, hraw2, hmem⟩ := hsub e he
    rw [hraw] at hraw2
    cases hraw2
    exact Js.toLowerCase_ascii_no_upper unicode raw hascii c (hmem c hc)
  · intro n hn
    rw [hname, rowName_eq, hn]
    rfl
  · cases hb : firstNonEmpty bookingIdAliases row with
    | none => exact absurd h ((firstNonEmpty_eq_none_iff _ _).mp hb)
    | some b => exact ⟨b, rfl, by rw [hid, rowBookingId_eq, hb]; rfl⟩
  · intro hnone
    have hre : rowEmail row = row.get "E-mail" := by rw [rowEmail_eq, hnone]
    refine ⟨fun hg => by rw [hemail, hre, hg]; rfl, fun v hv => ?_⟩
    have hv0 := firstNonEmpty_none_get emailAliases row "E-mail" v (by simp [emailAliases])
      hnone hv
    subst hv0
    rw [hemail, hre, hv]
    rfl
  · intro hnone
    have hre : rowName row = row.get "name" := by rw [rowName_eq, hnone]
    refine ⟨fun hg => by rw [hname, hre, hg]; rfl, fun v hv => ?_⟩
    have hv0 := firstNonEmpty_none_get nameAliases row "name" v (by simp [nameAliases])
      hnone hv
    subst hv0
    rw [hname, hre, hv]
    rfl

/-- Witness for C2 (amended): the first scenario row (`Email` `A@x.com`,
`Booking ID` `B1`) is kept with email `a@x.com`, and a row with identifier and
name but no email column is kept with the email absent. -/
theorem whitelist_fields_trimmed_lowercased_witness :
    hasField bookingIdAliases [("Email", "A@x.com"), ("Name", "Ann"), ("Booking ID", "B1")]
    ∧ (∃ a, normalise Js.asciiTable
          [("Email", "A@x.com"), ("Name", "Ann"), ("Booking ID", "B1")] = some a
        ∧ a.email = some (Js.trim (Js.toLowerCase Js.asciiTable "A@x.com")))
    ∧ Js.trim (Js.toLowerCase Js.asciiTable "A@x.com") = "a@x.com"
    ∧ normalise Js.asciiTable [("Email", "A@x.com"), ("Name", "Ann"), ("Booking ID", "B1")]
        = some { email := some "a@x.com", name := some "Ann", bookingId := some "B1" }
    ∧ normalise Js.asciiTable rowWithoutEmail
        = some { email := none, name := some "Ann", bookingId := some "B7" } :=
  ⟨by decide,
   (whitelist_fields_trimmed_lowercased Js.asciiTable
      [("Email", "A@x.com"), ("Name", "Ann"), ("Booking ID", "B1")] (by decide)).imp
     (fun _ ha => ⟨ha.1, ha.2.1 "A@x.com" (by decide)⟩),
   by decide, by decide, by decide⟩

theorem firstNonEmpty_of_carriesAlone (aliases : List String) (a v : String) (row : Row)
    (ha : a ∈ aliases) (hv : v ≠ "") (h : carriesAlone aliases a v row) :
    firstNonEmpty aliases row = some v := by
  obtain ⟨hget, hother⟩ := h
  unfold firstNonEmpty
  induction aliases with
  | nil => simp at ha
  | cons k rest ih =>
    by_cases hk : k = a
    · subst hk
      simp [List.findSome?, hget, hv]
    · have hnone := hother k (by simp) hk
      have ha2 : a ∈ rest := by
        rcases List.mem_cons.mp ha with h1 | h1
        · exact absurd h1.symm hk
        · exact h1
      simp only [List.findSome?, hnone]
      exact ih ha2 (fun k2 hk2 hne => hother k2 (List.mem_cons_of_mem _ hk2) hne)

theorem AttendeeField.raw_of_firstNonEmpty (f : AttendeeField) (row : Row) (v : String)
    (h : firstNonEmpty f.aliases row = some v) : f.raw row = some v := by
  cases f
  · simp only [AttendeeField.raw, AttendeeField.aliases] at *; simp [rowEmail_eq, h]
  · simp only [AttendeeField.raw, AttendeeField.aliases] at *; simp [rowName_eq, h]
  · simp only [AttendeeField.raw, AttendeeField.aliases] at *; simp [rowBookingId_eq, h]

theorem AttendeeField.canonical_of_normalise (unicode : String → String) (f : AttendeeField)
    (row : Row) (x : Attendee) (h : normalise unicode row = some x) :
    f.canonical x = (f.raw row).map (AttendeeField.clean unicode f) := by
  rw [normalise_eq] at h
  split at h
  · cases h
    cases f <;> simp [AttendeeField.canonical, AttendeeField.raw, AttendeeField.clean,
      Option.map_map, Function.comp_def]
  · exact Option.noConfusion h

/-- C7: for each field, any two accepted spellings are interchangeable: a row
carrying a non-empty value `v` under one spelling alone and a row carrying `v`
under another spelling alone yield the same value for the field, and the same
canonical field in the emitted records; and when several spellings are
present, the first non-empty one in the listed order is the one used. -/
theorem whitelist_alias_spellings_agree (unicode : String → String) (f : AttendeeField)
    (a b v : String) (r1 r2 : Row)
    (ha : a ∈ f.aliases) (hb : b ∈ f.aliases) (hv : v ≠ "")
    (h1 : carriesAlone f.aliases a v r1) (h2 : carriesAlone f.aliases b v r2) :
    f.raw r1 = some v ∧ f.raw r2 = some v
    ∧ (∀ x1 x2, normalise unicode r1 = some x1 → normalise unicode r2 = some x2 →
        f.canonical x1 = some (AttendeeField.clean unicode f v)
        ∧ f.canonical x2 = some (AttendeeField.clean unicode f v))
    ∧ (f = AttendeeField.bookingId →
        (∃ x1, normalise unicode r1 = some x1) ∧ (∃ x2, normalise unicode r2 = some x2))
    ∧ (∀ (row : Row) (w : String), firstNonEmpty f.aliases row = some w →
        f.raw row = some w
        ∧ ∀ x, normalise unicode row = some x →
            f.canonical x = some (AttendeeField.clean unicode f w)) := by
  have e1 := AttendeeField.raw_of_firstNonEmpty f r1 v (firstNonEmpty_of_carriesAlone _ a v r1 ha hv h1)
  have e2 := AttendeeField.raw_of_firstNonEmpty f r2 v (firstNonEmpty_of_carriesAlone _ b v r2 hb hv h2)
  refine ⟨e1, e2, ?_, ?_, ?_⟩
  · intro x1 x2 hx1 hx2
    rw [AttendeeField.canonical_of_normalise unicode f r1 x1 hx1,
      AttendeeField.canonical_of_normalise unicode f r2 x2 hx2, e1, e2]
    exact ⟨rfl, rfl⟩
  · intro hf
    subst hf
    have t1 : Js.truthy (rowBookingId r1) = true := by
      have : rowBookingId r1 = some v := e1
      rw [this]; simp [Js.truthy, hv]
    have t2 : Js.truthy (rowBookingId r2) = true := by
      have : rowBookingId r2 = some v := e2
      rw [this]; simp [Js.truthy, hv]
    exact ⟨(normalise_isSome_iff unicode r1).mpr ((truthy_rowBookingId_iff r1).mp t1),
      (normalise_isSome_iff unicode r2).mpr ((truthy_rowBookingId_iff r2).mp t2)⟩
  · intro row w hw
    have e := AttendeeField.raw_of_firstNonEmpty f row w hw
    refine ⟨e, fun x hx => ?_⟩
    rw [AttendeeField.canonical_of_normalise unicode f row x hx, e]
    rfl

/-- Witness for C7: the identifier `B2` under `bookingId` in one row and under
`booking_id` in another is read as the same value. -/
theorem whitelist_alias_spellings_agree_witness :
    AttendeeField.raw AttendeeField.bookingId aliasRowA = some "B2"
    ∧ AttendeeField.raw AttendeeField.bookingId aliasRowB = some "B2"
    ∧ normalise Js.asciiTable aliasRowA = normalise Js.asciiTable aliasRowB
    ∧ normalise Js.asciiTable aliasRowA
        = some { email := some "bo@x.com", name := none, bookingId := some "B2" } :=
  ⟨(whitelist_alias_spellings_agree Js.asciiTable AttendeeField.bookingId "bookingId"
      "booking_id" "B2" aliasRowA aliasRowB (by decide) (by decide) (by decide)
      (by decide) (by decide)).1,
   (whitelist_alias_spellings_agree Js.asciiTable AttendeeField.bookingId "bookingId"
      "booking_id" "B2" aliasRowA aliasRowB (by decide) (by decide) (by decide)
      (by decide) (by decide)).2.1,
   by decide, by decide⟩

/-! ## The whitelist synchroniser -/

theorem importAttendees_allOk (unicode : String → String) (rows : List Row)
    (store : WhitelistStore) :
    importAttendees ImportEnv.allOk unicode rows store = parseAttendees unicode rows := by
  simp [importAttendees, ImportEnv.allOk, deleteMany, insertMany]

/-- C4: with connect, delete and insert succeeding, running `importAttendees`
twice on the same file leaves the store as one run does, and that content is
exactly the normaliser's output for the file, whatever the store held
before. -/
theorem import_twice_same_as_once (unicode : String → String) (store other : WhitelistStore)
    (file : CsvFile) :
    importAttendees ImportEnv.allOk unicode (whitelistRows file)
        (importAttendees ImportEnv.allOk unicode (whitelistRows file) store)
      = importAttendees ImportEnv.allOk unicode (whitelistRows file) store
    ∧ importAttendees ImportEnv.allOk unicode (whitelistRows file) store
      = parseAttendees unicode (whitelistRows file)
    ∧ importAttendees ImportEnv.allOk unicode (whitelistRows file) other
      = importAttendees ImportEnv.allOk unicode (whitelistRows file) store := by
  simp [importAttendees_allOk]

/-- C5 (the code at the failing input): a record whose identifier cell holds
only blanks passes the `!bookingId` test and is emitted with the empty string
as its stored bookingId. -/
theorem blank_identifier_emitted_empty (unicode : String → String) :
    parseAttendees unicode (whitelistRows blankIdentifierFile)
      = [{ email := some "a@x.com", name := some "Ann", bookingId := some "" }] := by
  rfl

/-- C8 (the code at the failing input): a file whose identifier column is
headed `booking id` or `BookingId` yields no record at all, although blanks
around an accepted header are tolerated. -/
theorem header_case_variants_dropped (unicode : String → String) :
    parseAttendees unicode (whitelistRows lowerCaseHeaderFile) = []
    ∧ parseAttendees unicode (whitelistRows camelCaseHeaderFile) = []
    ∧ parseAttendees unicode (whitelistRows paddedHeaderFile)
      = [{ email := some "a@x.com", name := some "Ann", bookingId := some "B1" }] := by
  exact ⟨rfl, rfl, rfl⟩

/-! ## Application de-duplication -/

theorem apply_store_cases (env : ApplyEnv) (store : AppStore) (req : ApplyReq) :
    (apply env store req).2 = store
    ∨ ((apply env store req).2 = store ++ [newApplication env req]
        ∧ store.any (isPair req.userEmail req.jobId) = false) := by
  unfold apply
  rcases hp : env.precheck with e | (_ | found)
  · simp
  · rcases hf : env.saveFault with _ | e
    · by_cases hany : store.any (isPair (newApplication env req).userEmail
          (newApplication env req).jobId) = true
      · left
        simp only [save]
        rw [if_pos hany]
      · right
        simp only [save]
        rw [if_neg hany]
        exact ⟨rfl, by simpa [newApplication] using hany⟩
    · simp [save]
  · simp

theorem apply_preserves_atMostOne (e j : Option String) (env : ApplyEnv) (store : AppStore)
    (req : ApplyReq) (h : atMostOne e j store) : atMostOne e j (apply env store req).2 := by
  rcases apply_store_cases env store req with h1 | ⟨h1, h2⟩
  · rw [h1]; exact h
  · rw [h1]
    unfold atMostOne at *
    rw [List.countP_append]
    by_cases hp : isPair e j (newApplication env req) = true
    · have he : req.userEmail = e ∧ req.jobId = j := by
        simpa [isPair, newApplication] using hp
      have h0 : store.countP (isPair e j) = 0 := by
        rw [List.countP_eq_zero]
        intro a ha hpa
        rw [← he.1, ← he.2] at hpa
        have : store.any (isPair req.userEmail req.jobId) = true :=
          List.any_eq_true.mpr ⟨a, ha, hpa⟩
        rw [h2] at this
        exact Bool.noConfusion this
      simp [h0, hp]
    · simp [hp]
      exact h

theorem applyAll_preserves_atMostOne (e j : Option String) (attempts : List (ApplyEnv × ApplyReq))
    (store : AppStore) (h : atMostOne e j store) : atMostOne e j (applyAll store attempts) := by
  unfold applyAll
  induction attempts generalizing store with
  | nil => exact h
  | cons p rest ih =>
    rw [List.foldl_cons]
    exact ih _ (apply_preserves_atMostOne e j p.1 store p.2 h)

theorem apply_duplicate_rejected (env : ApplyEnv) (store : AppStore) (req : ApplyReq)
    (hdup : store.any (isPair req.userEmail req.jobId) = true) :
    (apply env store req).2 = store
    ∧ (∀ found, env.precheck = Except.ok (some found) →
        (apply env store req).1 = alreadyApplied)
    ∧ (env.precheck = Except.ok none → env.saveFault = none →
        (apply env store req).1 = alreadyApplied) := by
  refine ⟨?_, ?_, ?_⟩
  · rcases apply_store_cases env store req with h1 | ⟨_, h2⟩
    · exact h1
    · rw [hdup] at h2; exact Bool.noConfusion h2
  · intro found hp
    simp [apply, hp]
  · intro hp hf
    have hany : store.any (isPair (newApplication env req).userEmail
        (newApplication env req).jobId) = true := by
      simpa [newApplication] using hdup
    simp only [apply, hp, hf, save]
    rw [if_pos hany]
    simp [applyCatch]

/-- C3: a store that holds at most one application for a (userEmail, jobId)
pair still does after any sequence of apply attempts, whatever each attempt's
pre-check saw; an apply for a pair already in the store leaves the store
unchanged and is answered with status 400 and the message
`You have already applied for this job`, both when the pre-check finds the
duplicate and when it misses it and the store refuses the save with code
11000. -/
theorem apply_keeps_one_application_per_pair (e j : Option String) (store : AppStore)
    (attempts : List (ApplyEnv × ApplyReq)) (h : atMostOne e j store) :
    atMostOne e j (applyAll store attempts)
    ∧ (∀ (env : ApplyEnv) (st : AppStore) (req : ApplyReq),
        st.any (isPair req.userEmail req.jobId) = true →
          (apply env st req).2 = st
          ∧ (∀ found, env.precheck = Except.ok (some found) →
              (apply env st req).1 = alreadyApplied)
          ∧ (env.precheck = Except.ok none → env.saveFault = none →
              (apply env st req).1 = alreadyApplied))
    ∧ alreadyApplied = { status := 400, message := "You have already applied for this job" } :=
  ⟨applyAll_preserves_atMostOne e j attempts store h,
   fun env st req hdup => apply_duplicate_rejected env st req hdup, rfl⟩

/-- Witness for C3: two back-to-back apply calls with the same userEmail and
jobId give 201 and then the duplicate rejection, a second call whose pre-check
missed the first is rejected through code 11000, and one application remains. -/
theorem apply_keeps_one_application_per_pair_witness :
    atMostOne (some "u@x.com") (some "j1") []
    ∧ atMostOne (some "u@x.com") (some "j1")
        (applyAll [] [(staleEnv, scenarioReq), (staleEnv, scenarioReq)])
    ∧ (applyAlone "id1" 1 [] scenarioReq).1
        = { status := 201, message := "Application submitted successfully" }
    ∧ applyAlone "id2" 2 scenarioStore scenarioReq = (alreadyApplied, scenarioStore)
    ∧ apply staleEnv scenarioStore scenarioReq = (alreadyApplied, scenarioStore)
    ∧ scenarioStore.length = 1 :=
  ⟨by unfold atMostOne; decide,
   (apply_keeps_one_application_per_pair (some "u@x.com") (some "j1") []
      [(staleEnv, scenarioReq), (staleEnv, scenarioReq)] (by unfold atMostOne; decide)).1,
   by decide, by decide, by decide, by decide⟩

/-! ## Applications export -/

theorem splitQuotedAux_plain (xs rest cur : List Char) (h : delimiterFreeChars xs) :
    splitQuotedAux false cur (xs ++ ',' :: rest)
      = (cur.reverse ++ xs) :: splitQuotedAux false [] rest := by
  induction xs generalizing cur with
  | nil => simp [splitQuotedAux]
  | cons x xs ih =>
    have hx := h x (by simp)
    simp only [List.cons_append, splitQuotedAux, hx.2, hx.1, if_false]
    simp
    rw [ih (x :: cur) (fun c hc => h c (by simp [hc]))]
    simp

theorem splitQuotedAux_plain_end (xs cur : List Char) (h : delimiterFreeChars xs) :
    splitQuotedAux false cur xs = [cur.reverse ++ xs] := by
  induction xs generalizing cur with
  | nil => simp [splitQuotedAux]
  | cons x xs ih =>
    have hx := h x (by simp)
    simp only [splitQuotedAux, hx.2, hx.1, if_false]
    simp
    rw [ih (x :: cur) (fun c hc => h c (by simp [hc]))]
    simp

theorem splitQuotedAux_quoted (xs rest cur : List Char)
    (h : ∀ c ∈ xs, c ≠ '"') :
    splitQuotedAux true cur (xs ++ '"' :: rest)
      = splitQuotedAux false (xs.reverse ++ cur) rest := by
  induction xs generalizing cur with
  | nil => simp [splitQuotedAux]
  | cons x xs ih =>
    have hx := h x (by simp)
    simp only [List.cons_append, splitQuotedAux, hx, if_false]
    simp
    rw [ih (x :: cur) (fun c hc => h c (by simp [hc]))]

theorem splitQuotedAux_quoted_field (xs rest : List Char) (h : ∀ c ∈ xs, c ≠ '"') :
    splitQuotedAux false [] ('"' :: (xs ++ '"' :: ',' :: rest))
      = xs :: splitQuotedAux false [] rest := by
  have h1 : splitQuotedAux false [] ('"' :: (xs ++ '"' :: ',' :: rest))
      = splitQuotedAux true [] (xs ++ '"' :: ',' :: rest) := by
    simp [splitQuotedAux]
  rw [h1, splitQuotedAux_quoted xs _ [] h]
  have h2 := splitQuotedAux_plain [] rest (xs.reverse ++ []) (by simp [delimiterFreeChars])
  simpa using h2

theorem plainChars_delimiterFree (xs : List Char) (h : plainChars xs) :
    delimiterFreeChars xs :=
  fun c hc => ⟨(h c hc).1, (h c hc).2.1⟩

theorem csvRow_data (localeDate : Nat → String) (app : JobApplication) :
    (csvRow localeDate app).data =
      app._id.data ++ ',' :: '"' :: ((Js.orEmpty app.jobTitle).data ++ '"' :: ',' ::
        ((Js.toStr app.userEmail).data ++ ',' :: '"' :: ((Js.orEmpty app.name).data ++
          '"' :: ',' :: ((Js.orEmpty app.phone).data ++ ',' ::
            ((localeDate app.createdAt).data ++ ',' :: (Js.orEmpty app.resumeFile).data))))) := by
  simp [csvRow, String.data_append]

theorem csvRow_eq_tail (localeDate : Nat → String) (app : JobApplication) :
    csvRow localeDate app
      = app._id ++ ",\"" ++ Js.orEmpty app.jobTitle ++ "\"," ++ rowTail localeDate app := by
  simp [csvRow, rowTail, String.append_assoc]

theorem splitQuoted_csvRow_title (localeDate : Nat → String) (app : JobApplication)
    (h1 : delimiterFree app._id) (h2 : quoteFree (Js.orEmpty app.jobTitle)) :
    (splitQuoted (csvRow localeDate app)).get? 1 = some (Js.orEmpty app.jobTitle) := by
  unfold splitQuoted
  rw [csvRow_data, splitQuotedAux_plain _ _ _ h1, splitQuotedAux_quoted_field _ _ h2]
  simp

theorem splitQuoted_csvRow (localeDate : Nat → String) (app : JobApplication)
    (h : exportable localeDate app) :
    splitQuoted (csvRow localeDate app) = exportFields localeDate app := by
  obtain ⟨h1, h2, h3, h4, h5, h6, h7⟩ := h
  unfold splitQuoted
  rw [csvRow_data, splitQuotedAux_plain _ _ _ (plainChars_delimiterFree _ h1),
    splitQuotedAux_quoted_field _ _ h2,
    splitQuotedAux_plain _ _ _ (plainChars_delimiterFree _ h3),
    splitQuotedAux_quoted_field _ _ h4,
    splitQuotedAux_plain _ _ _ (plainChars_delimiterFree _ h5),
    splitQuotedAux_plain _ _ _ (plainChars_delimiterFree _ h6),
    splitQuotedAux_plain_end _ _ (plainChars_delimiterFree _ h7)]
  simp [exportFields]

theorem parseCsvAux_plain_comma (xs rest cur : List Char) (fields : List (List Char))
    (h : plainChars xs) :
    parseCsvAux false cur fields (xs ++ ',' :: rest)
      = parseCsvAux false [] ((cur.reverse ++ xs) :: fields) rest := by
  induction xs generalizing cur with
  | nil => simp [parseCsvAux]
  | cons x xs ih =>
    have hx := h x (by simp)
    simp only [List.cons_append, parseCsvAux, hx.1, hx.2.1, hx.2.2.1, if_false]
    simp
    rw [ih (x :: cur) (fun c hc => h c (by simp [hc]))]
    simp

theorem parseCsvAux_plain_newline (xs rest cur : List Char) (fields : List (List Char))
    (h : plainChars xs) :
    parseCsvAux false cur fields (xs ++ '\n' :: rest)
      = ((cur.reverse ++ xs) :: fields).reverse :: parseCsvAux false [] [] rest := by
  induction xs generalizing cur with
  | nil => simp [parseCsvAux]
  | cons x xs ih =>
    have hx := h x (by simp)
    simp only [List.cons_append, parseCsvAux, hx.1, hx.2.1, hx.2.2.1, if_false]
    simp
    rw [ih (x :: cur) (fun c hc => h c (by simp [hc]))]
    simp

theorem parseCsvAux_plain_end (xs cur : List Char) (fields : List (List Char))
    (h : plainChars xs) :
    parseCsvAux false cur fields xs = [((cur.reverse ++ xs) :: fields).reverse] := by
  induction xs generalizing cur with
  | nil => simp [parseCsvAux]
  | cons x xs ih =>
    have hx := h x (by simp)
    simp only [parseCsvAux, hx.1, hx.2.1, hx.2.2.1, if_false]
    simp
    rw [ih (x :: cur) (fun c hc => h c (by simp [hc]))]
    simp

theorem parseCsvAux_quoted (xs rest cur : List Char) (fields : List (List Char))
    (h : ∀ c ∈ xs, c ≠ '"') :
    parseCsvAux true cur fields (xs ++ '"' :: rest)
      = parseCsvAux false (xs.reverse ++ cur) fields rest := by
  induction xs generalizing cur with
  | nil => simp [parseCsvAux]
  | cons x xs ih =>
    have hx := h x (by simp)
    simp only [List.cons_append, parseCsvAux, hx, if_false]
    simp
    rw [ih (x :: cur) (fun c hc => h c (by simp [hc]))]

theorem parseCsvAux_quoted_comma (xs rest : List Char) (fields : List (List Char))
    (h : ∀ c ∈ xs, c ≠ '"') :
    parseCsvAux false [] fields ('"' :: (xs ++ '"' :: ',' :: rest))
      = parseCsvAux false [] (xs :: fields) rest := by
  have h1 : parseCsvAux false [] fields ('"' :: (xs ++ '"' :: ',' :: rest))
      = parseCsvAux true [] fields (xs ++ '"' :: ',' :: rest) := by
    simp [parseCsvAux]
  rw [h1, parseCsvAux_quoted xs _ [] fields h]
  have h2 := parseCsvAux_plain_comma [] rest (xs.reverse ++ []) fields (by simp [plainChars])
  simpa using h2

theorem parseCsvAux_row_then (localeDate : Nat → String) (app : JobApplication)
    (rest : List Char) (h : exportable localeDate app) :
    parseCsvAux false [] [] ((csvRow localeDate app).data ++ '\n' :: rest)
      = (exportFields localeDate app).map String.data :: parseCsvAux false [] [] rest := by
  obtain ⟨h1, h2, h3, h4, h5, h6, h7⟩ := h
  rw [csvRow_data]
  simp only [List.append_assoc, List.cons_append]
  rw [parseCsvAux_plain_comma _ _ _ _ h1, parseCsvAux_quoted_comma _ _ _ h2,
    parseCsvAux_plain_comma _ _ _ _ h3, parseCsvAux_quoted_comma _ _ _ h4,
    parseCsvAux_plain_comma _ _ _ _ h5, parseCsvAux_plain_comma _ _ _ _ h6,
    parseCsvAux_plain_newline _ _ _ _ h7]
  simp [exportFields]

theorem parseCsvAux_row_end (localeDate : Nat → String) (app : JobApplication)
    (h : exportable localeDate app) :
    parseCsvAux false [] [] (csvRow localeDate app).data
      = [(exportFields localeDate app).map String.data] := by
  obtain ⟨h1, h2, h3, h4, h5, h6, h7⟩ := h
  rw [csvRow_data]
  rw [parseCsvAux_plain_comma _ _ _ _ h1, parseCsvAux_quoted_comma _ _ _ h2,
    parseCsvAux_plain_comma _ _ _ _ h3, parseCsvAux_quoted_comma _ _ _ h4,
    parseCsvAux_plain_comma _ _ _ _ h5, parseCsvAux_plain_comma _ _ _ _ h6,
    parseCsvAux_plain_end _ _ _ h7]
  simp [exportFields]

theorem intercalate_go_eq (s : String) (l : List String) (acc : String) :
    String.intercalate.go acc s l = acc ++ String.intercalate.go "" s l := by
  induction l generalizing acc with
  | nil => simp [String.intercalate.go]
  | cons a rest ih =>
    simp only [String.intercalate.go]
    rw [ih (acc ++ s ++ a), ih ("" ++ s ++ a)]
    simp [String.append_assoc]

theorem intercalate_cons_cons (s a b : String) (l : List String) :
    String.intercalate s (a :: b :: l) = a ++ s ++ String.intercalate s (b :: l) := by
  simp only [String.intercalate, String.intercalate.go]
  rw [intercalate_go_eq s l (a ++ s ++ b), intercalate_go_eq s l b]
  simp [String.append_assoc]

theorem parseCsvAux_rows (localeDate : Nat → String) (app : JobApplication)
    (apps : List JobApplication) (h : ∀ x ∈ app :: apps, exportable localeDate x) :
    parseCsvAux false [] []
        (String.intercalate "\n" ((app :: apps).map (csvRow localeDate))).data
      = (app :: apps).map (fun x => (exportFields localeDate x).map String.data) := by
  induction apps generalizing app with
  | nil =>
    have h0 := h app (by simp)
    simpa [String.intercalate, String.intercalate.go] using
      parseCsvAux_row_end localeDate app h0
  | cons b rest ih =>
    have h0 := h app (by simp)
    have hrest : ∀ x ∈ b :: rest, exportable localeDate x :=
      fun x hx => h x (List.mem_cons_of_mem _ hx)
    simp only [List.map_cons] at ih ⊢
    rw [intercalate_cons_cons]
    have hdata : (csvRow localeDate app ++ "\n"
          ++ String.intercalate "\n" (csvRow localeDate b :: rest.map (csvRow localeDate))).data
        = (csvRow localeDate app).data ++ '\n'
          :: (String.intercalate "\n"
              (csvRow localeDate b :: rest.map (csvRow localeDate))).data := by
      simp [String.data_append]
    rw [hdata, parseCsvAux_row_then localeDate app _ h0, ih b hrest]

theorem parseCsvAux_header (rest : List Char) :
    parseCsvAux false [] [] (csvHeaderLine.data ++ '\n' :: rest)
      = csvHeaderFields.map String.data :: parseCsvAux false [] [] rest := by
  rfl

/-- C9 (counterexample): a comma in the phone number, which is written
without quotes, makes the row split into eight fields; a job title that
contains a double quote besides its comma is not returned as one field; and a
line feed in the phone number makes the exported text read as the header and
two short records. -/
theorem export_row_not_always_seven_fields :
    (splitQuoted (csvRow sampleLocaleDate commaPhoneApp)).length = 8
    ∧ (splitQuoted csvHeaderLine).length = 7
    ∧ quotedTitleApp.jobTitle = some "Lead \"Dev\", Ops"
    ∧ "Lead \"Dev\", Ops" ∉ splitQuoted (csvRow sampleLocaleDate quotedTitleApp)
    ∧ (parseCsv (exportApplications sampleLocaleDate [lineFeedPhoneApp])).map List.length
        = [7, 5, 3] := by
  decide

/-- C9 (amended): the applications export is the fixed header line followed by
one row per application in list order, each row holding the job title wrapped
in double quotes. For every application whose id has no comma or double quote
and whose job title has no double quote, a quote-aware split of the row
returns the job title as one field, any comma in it kept as data. For every
application none of whose values contains a double quote and whose unquoted
values (id, email, phone, date, resume file) contain no comma and no line
break, the row splits into the seven values of the header; and when every
application is such, the exported text reads, quote-aware, as the header
record followed by one seven-field record per application in list order. -/
theorem export_rows_seven_fields_when_plain (localeDate : Nat → String)
    (apps : List JobApplication) :
    exportApplications localeDate apps
      = csvHeaderLine ++ "\n" ++ String.intercalate "\n" (apps.map (csvRow localeDate))
    ∧ (apps.map (csvRow localeDate)).length = apps.length
    ∧ splitQuoted csvHeaderLine = csvHeaderFields
    ∧ csvHeaderFields.length = 7
    ∧ (∀ app : JobApplication,
        csvRow localeDate app
          = app._id ++ ",\"" ++ Js.orEmpty app.jobTitle ++ "\"," ++ rowTail localeDate app)
    ∧ (∀ app : JobApplication, delimiterFree app._id → quoteFree (Js.orEmpty app.jobTitle) →
        (splitQuoted (csvRow localeDate app)).get? 1 = some (Js.orEmpty app.jobTitle))
    ∧ (∀ app : JobApplication, exportable localeDate app →
        splitQuoted (csvRow localeDate app) = exportFields localeDate app
        ∧ (splitQuoted (csvRow localeDate app)).length = 7)
    ∧ (apps ≠ [] → (∀ app ∈ apps, exportable localeDate app) →
        parseCsv (exportApplications localeDate apps)
          = csvHeaderFields :: apps.map (exportFields localeDate)) := by
  refine ⟨rfl, by simp, by decide, rfl, csvRow_eq_tail localeDate,
    splitQuoted_csvRow_title localeDate, ?_, ?_⟩
  · intro app hex
    rw [splitQuoted_csvRow localeDate app hex]
    exact ⟨rfl, rfl⟩
  · intro hne hall
    cases apps with
    | nil => exact absurd rfl hne
    | cons app rest =>
      have htext : (exportApplications localeDate (app :: rest)).data
          = csvHeaderLine.data ++ '\n'
            :: (String.intercalate "\n" ((app :: rest).map (csvRow localeDate))).data := by
        have : exportApplications localeDate (app :: rest)
            = csvHeaderLine ++ "\n"
              ++ String.intercalate "\n" ((app :: rest).map (csvRow localeDate)) := rfl
        rw [this]
        simp [String.data_append]
      unfold parseCsv
      rw [htext, parseCsvAux_header, parseCsvAux_rows localeDate app rest hall]
      simp [Function.comp_def]

/-- Witness for C9 (amended): the application titled `Engineer, Senior` is
exported as a seven-field row whose second field is the whole title, the
title stays one field when the phone number holds a comma, and a two-row
export with a comma and a line feed inside a quoted name reads back as the
header and two seven-field records. -/
theorem export_rows_seven_fields_when_plain_witness :
    exportable sampleLocaleDate commaTitleApp
    ∧ exportable sampleLocaleDate secondApp
    ∧ (splitQuoted (csvRow sampleLocaleDate commaPhoneApp)).get? 1 = some "Engineer, Senior"
    ∧ parseCsv (exportApplications sampleLocaleDate [commaTitleApp, secondApp])
        = csvHeaderFields
          :: [commaTitleApp, secondApp].map (exportFields sampleLocaleDate)
    ∧ csvRow sampleLocaleDate commaTitleApp
        = "65a1,\"Engineer, Senior\",u@x.com,\"Uma\",555,11/4/2026,cv.pdf" :=
  ⟨by unfold exportable plainField plainChars quoteFree; decide,
   by unfold exportable plainField plainChars quoteFree; decide,
   (export_rows_seven_fields_when_plain sampleLocaleDate []).2.2.2.2.2.1 commaPhoneApp
     (by unfold delimiterFree delimiterFreeChars; decide) (by unfold quoteFree; decide),
   (export_rows_seven_fields_when_plain sampleLocaleDate [commaTitleApp, secondApp]).2.2.2.2.2.2.2
     (by simp)
     (by
       intro app happ
       simp only [List.mem_cons, List.mem_singleton, List.not_mem_nil, or_false] at happ
       rcases happ with rfl | rfl
       · unfold exportable plainField plainChars quoteFree; decide
       · unfold exportable plainField plainChars quoteFree; decide),
   by decide⟩

/-! ## Job CSV upload -/

theorem onJobData_eq (newJobs : List Job) (row : Row) :
    onJobData newJobs row = newJobs ++ (if validJobRow row then [jobOfRow row] else []) := by
  unfold onJobData validJobRow jobOfRow
  simp only [hasColumn_eq_truthy, Js.orEmpty_eq_getD]
  split <;> simp

theorem foldl_onJobData (rows : List Row) (acc : List Job) :
    rows.foldl onJobData acc = acc ++ (rows.filter validJobRow).map jobOfRow := by
  induction rows generalizing acc with
  | nil => simp
  | cons row rest ih =>
    rw [List.foldl_cons, ih, onJobData_eq]
    cases h : validJobRow row <;> simp [List.filter_cons, h]

theorem collectJobs_eq (rows : List Row) :
    collectJobs rows = (rows.filter validJobRow).map jobOfRow := by
  simp [collectJobs, foldl_onJobData]

/-- C6: the job upload collects exactly the rows that have a non-empty title
and a non-empty company, in input order; each collected job copies title and
company and takes location, experience, skills and description from the row,
empty when absent; when the stream ends and insert, unlink and respond
succeed, the handler inserts that list (no insert when it is empty), removes
the file and answers `<n> jobs uploaded successfully` with `n` its length. -/
theorem upload_collects_valid_rows (env : UploadEnv) (path : String)
    (hfile : env.file = some path) (hsetup : env.setupThrows = false)
    (hstream : env.stream = StreamEnd.ended) (hins : env.insertOk = true)
    (hunlink : env.unlinkOk 0 = true) (hrespond : env.respondOk 0 = true) :
    collectJobs env.rows = (env.rows.filter validJobRow).map jobOfRow
    ∧ (∀ row, validJobRow row = true ↔
        (∃ t, row.get "title" = some t ∧ t ≠ "") ∧ (∃ c, row.get "company" = some c ∧ c ≠ ""))
    ∧ (∀ row, (jobOfRow row).title = row.get "title"
        ∧ (jobOfRow row).company = row.get "company"
        ∧ (jobOfRow row).location = (row.get "location").getD ""
        ∧ (jobOfRow row).experience = (row.get "experience").getD ""
        ∧ (jobOfRow row).skills = (row.get "skills").getD ""
        ∧ (jobOfRow row).description = (row.get "description").getD "")
    ∧ uploadCsv env =
        (if collectJobs env.rows = [] then []
          else [Effect.insertJobs (collectJobs env.rows) true])
        ++ [Effect.unlinkSync path true,
            Effect.respond 200
              (toString (collectJobs env.rows).length ++ " jobs uploaded successfully") true] := by
  refine ⟨collectJobs_eq env.rows, ?_, fun row => ⟨rfl, rfl, rfl, rfl, rfl, rfl⟩, ?_⟩
  · intro row
    simp only [validJobRow, Bool.and_eq_true, hasColumn_eq_truthy, Js.truthy_iff]
  · simp only [uploadCsv, hfile, hsetup, hstream, onEnd, hins, hunlink, hrespond]
    cases hj : collectJobs env.rows with
    | nil => simp
    | cons j js => simp

/-- Witness for C6: of three rows the one without company is skipped, the two
others are inserted in order with empty strings for absent columns, and the
answer counts two jobs. -/
theorem upload_collects_valid_rows_witness :
    collectJobs sampleJobRows
      = [{ title := some "Dev", company := some "Acme", location := "Pune",
           experience := "", skills := "js", description := "" },
         { title := some "QA", company := some "Init", location := "",
           experience := "", skills := "", description := "" }]
    ∧ uploadCsv sampleUploadOk =
        (if collectJobs sampleUploadOk.rows = [] then []
          else [Effect.insertJobs (collectJobs sampleUploadOk.rows) true])
        ++ [Effect.unlinkSync "uploads/resumes/ab12" true,
            Effect.respond 200
              (toString (collectJobs sampleUploadOk.rows).length
                ++ " jobs uploaded successfully") true]
    ∧ toString (collectJobs sampleUploadOk.rows).length ++ " jobs uploaded successfully"
      = "2 jobs uploaded successfully" :=
  ⟨by decide,
   (upload_collects_valid_rows sampleUploadOk "uploads/resumes/ab12" rfl rfl rfl rfl rfl
      rfl).2.2.2,
   by decide⟩

/-! ## Cleanup of the uploaded file -/

theorem unlinkBeforeRespond_sound (path : String) (trace : List Effect) (deleted : Bool)
    (h : unlinkBeforeRespond path deleted trace = true) :
    ∀ pre status message ok post, trace = pre ++ Effect.respond status message ok :: post →
      deleted = true ∨ Effect.unlinkSync path true ∈ pre := by
  induction trace generalizing deleted with
  | nil =>
    intro pre status message ok post hsplit
    simp at hsplit
  | cons eff rest ih =>
    intro pre status message ok post hsplit
    cases pre with
    | nil =>
      simp only [List.nil_append, List.cons.injEq] at hsplit
      obtain ⟨rfl, rfl⟩ := hsplit
      simp only [unlinkBeforeRespond, Bool.and_eq_true] at h
      exact Or.inl h.1
    | cons first pre2 =>
      simp only [List.cons_append, List.cons.injEq] at hsplit
      obtain ⟨rfl, hrest⟩ := hsplit
      cases eff with
      | insertJobs jobs ok2 =>
        simp only [unlinkBeforeRespond] at h
        rcases ih deleted h pre2 status message ok post hrest with h1 | h1
        · exact Or.inl h1
        · exact Or.inr (List.mem_cons_of_mem _ h1)
      | respond s2 m2 ok2 =>
        simp only [unlinkBeforeRespond, Bool.and_eq_true] at h
        exact Or.inl h.1
      | unlinkSync p ok2 =>
        simp only [unlinkBeforeRespond] at h
        rcases ih _ h pre2 status message ok post hrest with h1 | h1
        · simp only [Bool.or_eq_true, Bool.and_eq_true, decide_eq_true_eq] at h1
          rcases h1 with h1 | ⟨rfl, rfl⟩
          · exact Or.inl h1
          · exact Or.inr (List.mem_cons_self _ _)
        · exact Or.inr (List.mem_cons_of_mem _ h1)

theorem uploadCsv_unlinkBeforeRespond (env : UploadEnv) (path : String)
    (hfile : env.file = some path) (hsetup : env.setupThrows = false) :
    unlinkBeforeRespond path false (uploadCsv env) = true := by
  simp only [uploadCsv, hfile, hsetup]
  cases env.stream with
  | ended =>
    simp only [onEnd, endCatch]
    split_ifs <;> simp_all [unlinkBeforeRespond]
  | parseError =>
    simp only [onError]
    split_ifs <;> simp_all [unlinkBeforeRespond]
  | readError => simp [unlinkBeforeRespond]

/-- On the paths that reach the `end` or the `error` handler (the stream is
built without a synchronous exception): whether the insert succeeds, the
insert fails or the parser stream fails, and whichever of unlink and respond
fail, every response of the handler comes after a successful `unlinkSync` of
the uploaded file; and when `unlinkSync` and the response themselves succeed,
the handler ends with that `unlinkSync` followed at once by the response,
which is the 500 answer after a failed insert or a parser failure. -/
theorem upload_unlinks_before_responding (env : UploadEnv) (path : String)
    (hfile : env.file = some path) (hsetup : env.setupThrows = false) :
    (∀ pre status message ok post,
        uploadCsv env = pre ++ Effect.respond status message ok :: post →
          Effect.unlinkSync path true ∈ pre)
    ∧ (env.stream ≠ StreamEnd.readError → env.unlinkOk 0 = true → env.respondOk 0 = true →
        ∃ pre status message,
          uploadCsv env
            = pre ++ [Effect.unlinkSync path true, Effect.respond status message true]
          ∧ (∀ eff ∈ pre, ∃ jobs ok, eff = Effect.insertJobs jobs ok))
    ∧ (env.stream = StreamEnd.parseError → env.unlinkOk 0 = true →
        uploadCsv env = [Effect.unlinkSync path true,
          Effect.respond 500 "CSV parsing failed" (env.respondOk 0)])
    ∧ (env.stream = StreamEnd.ended → collectJobs env.rows ≠ [] → env.insertOk = false →
        env.unlinkOk 0 = true →
        uploadCsv env = [Effect.insertJobs (collectJobs env.rows) false,
          Effect.unlinkSync path true,
          Effect.respond 500 "Failed to save jobs" (env.respondOk 0)]) := by
  refine ⟨?_, ?_, ?_, ?_⟩
  · intro pre status message ok post hsplit
    have h := unlinkBeforeRespond_sound path (uploadCsv env) false
      (uploadCsv_unlinkBeforeRespond env path hfile hsetup) pre status message ok post hsplit
    rcases h with h | h
    · exact Bool.noConfusion h
    · exact h
  · intro hstream hunlink hrespond
    simp only [uploadCsv, hfile, hsetup]
    cases hs : env.stream with
    | ended =>
      simp only [onEnd, endCatch, hunlink, hrespond]
      by_cases hlen : (collectJobs env.rows).length > 0
      · by_cases hins : env.insertOk = true
        · exact ⟨[Effect.insertJobs (collectJobs env.rows) true], 200,
            toString (collectJobs env.rows).length ++ " jobs uploaded successfully",
            by simp [hlen, hins], by simp⟩
        · exact ⟨[Effect.insertJobs (collectJobs env.rows) false], 500, "Failed to save jobs",
            by simp [hlen, hins], by simp⟩
      · exact ⟨[], 200,
          toString (collectJobs env.rows).length ++ " jobs uploaded successfully",
          by simp [hlen], by simp⟩
    | parseError =>
      exact ⟨[], 500, "CSV parsing failed", by simp [onError, hunlink, hrespond], by simp⟩
    | readError => exact absurd hs hstream
  · intro hstream hunlink
    simp [uploadCsv, hfile, hsetup, hstream, onError, hunlink]
  · intro hstream hjobs hins hunlink
    have hlen : (collectJobs env.rows).length > 0 := List.length_pos.mpr hjobs
    simp [uploadCsv, hfile, hsetup, hstream, onEnd, endCatch, hlen, hins, hunlink]

/-- The handled paths on the sample upload: with the insert failing the
handler unlinks the file and then answers 500, likewise when the parser stream
fails, and after a successful insert it unlinks and then answers 200. -/
theorem upload_unlinks_before_responding_witness :
    (∀ pre status message ok post,
        uploadCsv sampleUploadInsertFails = pre ++ Effect.respond status message ok :: post →
          Effect.unlinkSync "uploads/resumes/ab12" true ∈ pre)
    ∧ uploadCsv sampleUploadInsertFails
        = [Effect.insertJobs (collectJobs sampleJobRows) false,
           Effect.unlinkSync "uploads/resumes/ab12" true,
           Effect.respond 500 "Failed to save jobs" true]
    ∧ uploadCsv sampleUploadParseFails
        = [Effect.unlinkSync "uploads/resumes/ab12" true,
           Effect.respond 500 "CSV parsing failed" true]
    ∧ uploadCsv sampleUploadOk
        = [Effect.insertJobs (collectJobs sampleJobRows) true,
           Effect.unlinkSync "uploads/resumes/ab12" true,
           Effect.respond 200 "2 jobs uploaded successfully" true] :=
  ⟨(upload_unlinks_before_responding sampleUploadInsertFails "uploads/resumes/ab12"
      rfl rfl).1,
   by decide, by decide, by decide⟩

/-- C10 (the code at the failing inputs): for a request that carries a file,
the outer `catch` answers 500 `CSV upload failed` with no `unlinkSync` before
it, and an error of the file stream, which has no listener, runs no handler of
the route: the file is never unlinked and no response is sent; the inner
`catch` and the `error` handler do unlink before their 500. -/
theorem upload_failure_paths_keep_file :
    sampleUploadSetupThrows.file = some "uploads/resumes/ab12"
    ∧ uploadCsv sampleUploadSetupThrows = [Effect.respond 500 "CSV upload failed" true]
    ∧ Effect.unlinkSync "uploads/resumes/ab12" true ∉ uploadCsv sampleUploadSetupThrows
    ∧ sampleUploadReadFails.file = some "uploads/resumes/ab12"
    ∧ uploadCsv sampleUploadReadFails = []
    ∧ uploadCsv sampleUploadInsertFails
        = [Effect.insertJobs (collectJobs sampleJobRows) false,
           Effect.unlinkSync "uploads/resumes/ab12" true,
           Effect.respond 500 "Failed to save jobs" true]
    ∧ uploadCsv sampleUploadParseFails
        = [Effect.unlinkSync "uploads/resumes/ab12" true,
           Effect.respond 500 "CSV parsing failed" true] := by
  decide
